import Mathlib

/-
Verification of `docs/scripts/validate.js`, the only executable code in the
repository.  The script reads an NDJSON file, classifies each record
(mapping / concept / scheme) and delegates to the external `jskos-validate`
library, tallying valid/invalid counts.

The embedding models JavaScript values as they come out of `JSON.parse`
(numbers are modelled as integers; only their truthiness and printing are
ever used by the script), JS truthiness, property access (property access on
`null` throws a TypeError), the `||` operator, and `String.prototype.includes`
versus `Array.prototype.includes` (calling `.includes` on a truthy value that
is neither a string nor an array throws a TypeError).  Exceptions are
modelled with `Except Unit`: the script installs no handler, so an error
aborts the whole run.  The external library `jskos-validate` and the built-in
`JSON.parse` are abstracted as parameters.
-/

namespace JsValidate

/-- A JSON value as produced by `JSON.parse`.  Numbers are modelled as
integers: the script only ever uses their truthiness (`0` is falsy) and
string rendering. -/
inductive JValue where
  | null
  | bool (b : Bool)
  | num (n : Int)
  | str (s : String)
  | arr (elems : List JValue)
  | obj (fields : List (String × JValue))

/-- JavaScript truthiness of a value: `null`, `false`, `0` and `""` are
falsy; every array and object is truthy. -/
def truthy : JValue → Bool
  | JValue.null => false
  | JValue.bool b => b
  | JValue.num n => n != 0
  | JValue.str s => s != ""
  | JValue.arr _ => true
  | JValue.obj _ => true

/-- Truthiness of a possibly-undefined value (`none` models `undefined`). -/
def truthyOpt : Option JValue → Bool
  | some v => truthy v
  | none => false

/-- JS property access `item[key]`: on `null` it throws a TypeError; on an
object it looks the key up (returning `undefined` when absent); on any other
value (number, string, boolean, array) the named properties used by the
script do not exist, so the result is `undefined`. -/
def jsGet : JValue → String → Except Unit (Option JValue)
  | JValue.null, _ => Except.error ()
  | JValue.obj fields, key => Except.ok (fields.lookup key)
  | _, _ => Except.ok none

/-- The JS `||` operator on possibly-undefined values: the first operand if
it is truthy, otherwise the second. -/
def jsOr (a b : Option JValue) : Option JValue :=
  match a with
  | some v => if truthy v then some v else b
  | none => b

/-- Line 16 of the script: `const typeField = item.type || item["@type"]`. -/
def getTypeField (item : JValue) : Except Unit (Option JValue) :=
  match jsGet item "type", jsGet item "@type" with
  | Except.ok t, Except.ok tA => Except.ok (jsOr t tA)
  | Except.error e, _ => Except.error e
  | _, Except.error e => Except.error e

/-- Does the character list start with the given pattern? -/
def startsWithChars : List Char → List Char → Bool
  | _, [] => true
  | [], _ :: _ => false
  | c :: cs, d :: ds => c == d && startsWithChars cs ds

/-- Does the character list contain the pattern as a contiguous run?  This is
`String.prototype.includes` on the underlying characters. -/
def hasSubstring : List Char → List Char → Bool
  | [], needle => startsWithChars [] needle
  | c :: cs, needle => startsWithChars (c :: cs) needle || hasSubstring cs needle

/-- `v.includes(needle)`: substring test on a string, whole-element equality
test on an array (`===` can only equate the string elements with `needle`);
on any other value `.includes` is not a function, so the call throws a
TypeError. -/
def jsIncludes (v : JValue) (needle : String) : Except Unit Bool :=
  match v with
  | JValue.str s => Except.ok (hasSubstring s.toList needle.toList)
  | JValue.arr elems =>
      Except.ok (elems.any fun e =>
        match e with
        | JValue.str s => s == needle
        | _ => false)
  | _ => Except.error ()

/-- The guard `typeField && typeField.includes(needle)` from lines 23 and 27:
a falsy or undefined `typeField` short-circuits to `false` without the
`.includes` call ever happening. -/
def typeIncludes (tf : Option JValue) (needle : String) : Except Unit Bool :=
  match tf with
  | some v => if truthy v then jsIncludes v needle else Except.ok false
  | none => Except.ok false

/-- One console line emitted by the script, as a structured event.  `render`
below gives the exact text printed for each event. -/
inductive OutLine where
  | skipWarn (idx : Nat)
  | validLine (typeField : Option JValue) (idx : Nat)
  | invalidHeader (typeField : Option JValue) (idx : Nat)
  | errMsg (msg : String)
  | summary (countValid countInvalid : Nat)

mutual

/-- JS string conversion as used by template literals: arrays join their
elements with commas, objects render as `[object Object]`. -/
def jsToString : JValue → String
  | JValue.null => "null"
  | JValue.bool b => if b then "true" else "false"
  | JValue.num n => toString n
  | JValue.str s => s
  | JValue.arr elems => jsToStringList elems
  | JValue.obj _ => "[object Object]"

/-- Comma-joined rendering of the elements of a JS array. -/
def jsToStringList : List JValue → String
  | [] => ""
  | [v] => jsToString v
  | v :: rest => jsToString v ++ "," ++ jsToStringList rest

end

/-- Rendering of `typeField` inside a template literal: `undefined` when the
value is absent. -/
def tfText : Option JValue → String
  | some v => jsToString v
  | none => "undefined"

/-- The exact console text of each output event (lines 32, 37, 39-41 and 46
of the script; `console.log("  -", e)` joins its arguments with a space). -/
def render : OutLine → String
  | OutLine.skipWarn idx => "⚠️ Skipping unknown item " ++ toString idx
  | OutLine.validLine tf idx =>
      "✅ [" ++ tfText tf ++ "] Item " ++ toString idx ++ " valid."
  | OutLine.invalidHeader tf idx =>
      "❌ [" ++ tfText tf ++ "] Item " ++ toString idx ++ " INVALID:"
  | OutLine.errMsg msg => "  - " ++ msg
  | OutLine.summary cv ci =>
      "\n✔️ Summary: " ++ toString cv ++ " valid, " ++ toString ci ++ " invalid."

/-- Abstract model of one validator of the external `jskos-validate`
library: the boolean verdict of calling it on a record, and the
`errorMessages` it exposes right after that call. -/
structure Validator where
  check : JValue → Bool
  errorMessages : JValue → List String

/-- The three validators `validate.mapping`, `validate.concept` and
`validate.scheme` of the external library. -/
structure Validators where
  mapping : Validator
  concept : Validator
  scheme : Validator

/-- Lines 36-43 of the script: given the verdict `isValid` and the library's
`errors` for one record, the lines printed and the increments to
`countValid` and `countInvalid`. -/
def finishItem (isValid : Bool) (errors : List String)
    (typeField : Option JValue) (idx : Nat) : List OutLine × Nat × Nat :=
  if isValid then
    ([OutLine.validLine typeField idx], 1, 0)
  else
    (OutLine.invalidHeader typeField idx :: errors.map OutLine.errMsg, 0, 1)

/-- The body of `items.forEach` (lines 15-44): compute `typeField`, run the
three-branch dispatch, and report.  A thrown TypeError (property access on
`null`, or `.includes` on a truthy non-string non-array) is an `error`. -/
def processItem (V : Validators) (idx : Nat) (item : JValue) :
    Except Unit (List OutLine × Nat × Nat) :=
  match getTypeField item, jsGet item "from", jsGet item "to" with
  | Except.ok typeField, Except.ok fromV, Except.ok toV =>
    if truthyOpt fromV && truthyOpt toV then
      Except.ok (finishItem (V.mapping.check item)
        (V.mapping.errorMessages item) typeField idx)
    else
      match typeIncludes typeField "skos:Concept" with
      | Except.error e => Except.error e
      | Except.ok true =>
          Except.ok (finishItem (V.concept.check item)
            (V.concept.errorMessages item) typeField idx)
      | Except.ok false =>
        match typeIncludes typeField "ConceptScheme" with
        | Except.error e => Except.error e
        | Except.ok true =>
            Except.ok (finishItem (V.scheme.check item)
              (V.scheme.errorMessages item) typeField idx)
        | Except.ok false => Except.ok ([OutLine.skipWarn idx], 0, 0)
  | Except.error e, _, _ => Except.error e
  | _, Except.error e, _ => Except.error e
  | _, _, Except.error e => Except.error e

/-- The category a record is classified into by the dispatch of
lines 19-34. -/
inductive Classification where
  | mapping
  | concept
  | scheme
  | skip
deriving DecidableEq

/-- The classification of one record, read off the same conditional
structure as the script: `from && to` first, then the two `includes`
guards, else skip. -/
def classify (item : JValue) : Except Unit Classification :=
  match getTypeField item, jsGet item "from", jsGet item "to" with
  | Except.ok typeField, Except.ok fromV, Except.ok toV =>
    if truthyOpt fromV && truthyOpt toV then
      Except.ok Classification.mapping
    else
      match typeIncludes typeField "skos:Concept" with
      | Except.error e => Except.error e
      | Except.ok true => Except.ok Classification.concept
      | Except.ok false =>
        match typeIncludes typeField "ConceptScheme" with
        | Except.error e => Except.error e
        | Except.ok true => Except.ok Classification.scheme
        | Except.ok false => Except.ok Classification.skip
  | Except.error e, _, _ => Except.error e
  | _, Except.error e, _ => Except.error e
  | _, _, Except.error e => Except.error e

/-- The external validator a category is dispatched to; `skip` records reach
no validator. -/
def validatorFor (V : Validators) : Classification → Option Validator
  | Classification.mapping => some V.mapping
  | Classification.concept => some V.concept
  | Classification.scheme => some V.scheme
  | Classification.skip => none

/-- The resolved `typeField` of a record, defaulting to `undefined` in the
(throwing) `null` case. -/
def typeFieldD (item : JValue) : Option JValue :=
  match getTypeField item with
  | Except.ok tf => tf
  | Except.error _ => none

/-- A record is processable when the forEach body runs on it without
throwing. -/
def processable (item : JValue) : Bool :=
  match classify item with
  | Except.ok _ => true
  | Except.error _ => false

/-- The output and counter increments that the classification of a record
determines: skip records warn, classified records are reported according to
the corresponding validator's verdict. -/
def dispatchResult (V : Validators) (idx : Nat) (item : JValue)
    (c : Classification) : List OutLine × Nat × Nat :=
  match validatorFor V c with
  | some v => finishItem (v.check item) (v.errorMessages item) (typeFieldD item) idx
  | none => ([OutLine.skipWarn idx], 0, 0)

/-- The observable state of one run: console events in order, the two
counters, and whether an uncaught exception aborted the run. -/
structure RunState where
  output : List OutLine
  countValid : Nat
  countInvalid : Nat
  crashed : Bool

/-- The `items.forEach` loop starting at index `idx`: a thrown exception
aborts the remaining iterations, keeping the output and counts accumulated
so far. -/
def runItemsFrom (V : Validators) (idx : Nat) : List JValue → RunState
  | [] => ⟨[], 0, 0, false⟩
  | item :: rest =>
    match processItem V idx item with
    | Except.error _ => ⟨[], 0, 0, true⟩
    | Except.ok (out, dv, di) =>
      let s := runItemsFrom V (idx + 1) rest
      ⟨out ++ s.output, dv + s.countValid, di + s.countInvalid, s.crashed⟩

/-- The forEach loop over all items followed by line 46: the summary line is
printed only when no exception aborted the loop. -/
def runOnItems (V : Validators) (items : List JValue) : RunState :=
  let s := runItemsFrom V 0 items
  if s.crashed then s
  else { s with output := s.output ++ [OutLine.summary s.countValid s.countInvalid] }

/-- Whitespace for the purposes of `String.prototype.trim`. -/
def jsIsWS (c : Char) : Bool :=
  c == ' ' || c == '\t' || c == '\n' || c == '\r' ||
  c == Char.ofNat 11 || c == Char.ofNat 12

/-- `content.trim()`: strip leading and trailing whitespace. -/
def jsTrim (cs : List Char) : List Char :=
  ((cs.dropWhile jsIsWS).reverse.dropWhile jsIsWS).reverse

/-- Extend the first chunk of a chunk list with one more leading
character. -/
def prependChar (c : Char) : List (List Char) → List (List Char)
  | [] => [[c]]
  | l :: ls => (c :: l) :: ls

/-- `content.split(/\r?\n/)`: each separator is a newline optionally
preceded by a carriage return; a carriage return not followed by a newline
is an ordinary character. -/
def splitLinesRegex : List Char → List (List Char)
  | [] => [[]]
  | '\r' :: '\n' :: cs => [] :: splitLinesRegex cs
  | '\n' :: cs => [] :: splitLinesRegex cs
  | c :: cs => prependChar c (splitLinesRegex cs)

/-- Lines 7-10 of the script: `content.trim().split(/\r?\n/).filter(Boolean)`
(on strings, `Boolean` keeps exactly the non-empty ones). -/
def computeLines (content : List Char) : List (List Char) :=
  (splitLinesRegex (jsTrim content)).filter (fun l => !l.isEmpty)

/-- Line 11, `lines.map(line => JSON.parse(line))`: the whole map happens
before the forEach, and a parse failure on any line throws, producing no
item list at all. -/
def parseAll (parse : List Char → Except Unit JValue) :
    List (List Char) → Except Unit (List JValue)
  | [] => Except.ok []
  | l :: rest =>
    match parse l with
    | Except.error e => Except.error e
    | Except.ok v =>
      match parseAll parse rest with
      | Except.error e => Except.error e
      | Except.ok vs => Except.ok (v :: vs)

/-- The whole script on given file content, abstracting `JSON.parse` and the
external validators: split into lines, parse them all, then run the forEach
and print the summary.  A parse failure aborts before any record is
processed, so nothing is printed. -/
def runScript (parse : List Char → Except Unit JValue) (V : Validators)
    (content : List Char) : RunState :=
  match parseAll parse (computeLines content) with
  | Except.error _ => ⟨[], 0, 0, true⟩
  | Except.ok items => runOnItems V items

/-- Line 6: `const filePath = process.argv[2] || "jskos-mappings.ndjson"`;
`process.argv[2]` is `undefined` or a string, and `||` treats the empty
string as falsy. -/
def filePath (argv2 : Option String) : String :=
  match argv2 with
  | some s => if s.isEmpty then "jskos-mappings.ndjson" else s
  | none => "jskos-mappings.ndjson"

/-- The script run end to end: the file system is a map from paths to
contents, and the content at the resolved path is processed. -/
def fullRun (parse : List Char → Except Unit JValue) (V : Validators)
    (fileSystem : String → List Char) (argv2 : Option String) : RunState :=
  runScript parse V (fileSystem (filePath argv2))

/-- A trivial concrete instantiation of the external library, used to
evaluate the script on concrete inputs. -/
def trivValidator : Validator :=
  ⟨fun _ => true, fun _ => []⟩

/-- Trivial concrete set of the three external validators. -/
def trivValidators : Validators :=
  ⟨trivValidator, trivValidator, trivValidator⟩

/-- A record is dispatched when its classification reaches one of the three
validators. -/
def isDispatched (item : JValue) : Bool :=
  match classify item with
  | Except.ok Classification.skip => false
  | Except.ok _ => true
  | Except.error _ => false

/-- The verdict the dispatched-to validator gives a record (false for
skipped or throwing records). -/
def recordValid (V : Validators) (item : JValue) : Bool :=
  match classify item with
  | Except.ok c =>
    match validatorFor V c with
    | some v => v.check item
    | none => false
  | Except.error _ => false

/-- Recognizer for the summary event. -/
def isSummaryEvt : OutLine → Bool
  | OutLine.summary _ _ => true
  | _ => false

/-- Does the record have the named property with a truthy value?  (False
also on `null`, where the access would throw.) -/
def hasTruthyField (item : JValue) (key : String) : Bool :=
  match jsGet item key with
  | Except.ok (some v) => truthy v
  | _ => false

/-- A model of `JSON.parse` that fails on every line, to exhibit a file
whose lines are all malformed. -/
def failParse : List Char → Except Unit JValue :=
  fun _ => Except.error ()

/-- A model of `JSON.parse` sending every line to the record
`{"type": 5}`. -/
def numTypeParse : List Char → Except Unit JValue :=
  fun _ => Except.ok (JValue.obj [("type", JValue.num 5)])

/-- Join a list of lines with the given separator (the inverse direction of
line splitting, used to state round-trip properties). -/
def interSep (sep : List Char) : List (List Char) → List Char
  | [] => []
  | [l] => l
  | l :: l2 :: ls => l ++ sep ++ interSep sep (l2 :: ls)

/-- A concrete mapping-shaped record, used to evaluate theorems on closed
inputs. -/
def mappingRecord : JValue :=
  JValue.obj [("from", JValue.str "a"), ("to", JValue.str "b")]

/-- A concrete two-record item list: one mapping record and one unknown
record. -/
def sampleItems : List JValue :=
  [mappingRecord, JValue.obj []]

/-- A concrete record with truthy `from`/`to` fields and a concept-looking
type. -/
def precedenceRecord : JValue :=
  JValue.obj [("from", JValue.str "x"), ("to", JValue.str "y"),
    ("type", JValue.str "skos:Concept")]

/-- A concrete record whose type string is exactly "ConceptScheme". -/
def schemeStringRecord : JValue :=
  JValue.obj [("type", JValue.str "ConceptScheme")]

/-- A concrete record whose type string is exactly "skos:ConceptScheme". -/
def skosSchemeStringRecord : JValue :=
  JValue.obj [("type", JValue.str "skos:ConceptScheme")]

/-- The forEach body is exactly the dispatch determined by the record's
classification. -/
theorem processItem_eq_classify (V : Validators) (idx : Nat) (item : JValue) :
    processItem V idx item = (classify item).map (dispatchResult V idx item) := by
  unfold processItem classify
  rcases h1 : getTypeField item with e | tf <;>
    rcases h2 : jsGet item "from" with e2 | fv <;>
      rcases h3 : jsGet item "to" with e3 | tv <;>
        simp only [h1, h2, h3, Except.map]
  by_cases hb : (truthyOpt fv && truthyOpt tv) = true
  · simp [hb, dispatchResult, validatorFor, typeFieldD, h1]
  · simp only [Bool.not_eq_true] at hb
    simp only [hb, Bool.false_eq_true, if_false]
    rcases h4 : typeIncludes tf "skos:Concept" with e4 | b4
    · rfl
    · cases b4
      · rcases h5 : typeIncludes tf "ConceptScheme" with e5 | b5
        · rfl
        · cases b5 <;> simp [dispatchResult, validatorFor, typeFieldD, h1]
      · simp [dispatchResult, validatorFor, typeFieldD, h1]

/-- Only objects can own a truthy property. -/
theorem hasTruthyField_obj {item : JValue} {k : String}
    (h : hasTruthyField item k = true) : ∃ fields, item = JValue.obj fields := by
  cases item
  case obj fields => exact ⟨fields, rfl⟩
  all_goals simp [hasTruthyField, jsGet] at h

/-- On an object, `hasTruthyField` is the truthiness of the looked-up
field. -/
theorem hasTruthyField_obj_eq (fields : List (String × JValue)) (k : String) :
    hasTruthyField (JValue.obj fields) k = truthyOpt (fields.lookup k) := by
  unfold hasTruthyField jsGet
  cases h : fields.lookup k <;> simp [h, truthyOpt]

/-- Classification of an object record, fully unfolded. -/
theorem classify_obj (fields : List (String × JValue)) :
    classify (JValue.obj fields) =
      (if truthyOpt (fields.lookup "from") && truthyOpt (fields.lookup "to") then
        Except.ok Classification.mapping
      else
        match typeIncludes (jsOr (fields.lookup "type") (fields.lookup "@type"))
            "skos:Concept" with
        | Except.error e => Except.error e
        | Except.ok true => Except.ok Classification.concept
        | Except.ok false =>
          match typeIncludes (jsOr (fields.lookup "type") (fields.lookup "@type"))
              "ConceptScheme" with
          | Except.error e => Except.error e
          | Except.ok true => Except.ok Classification.scheme
          | Except.ok false => Except.ok Classification.skip) := rfl

/-- C1 counterexample: the empty object is a parsed record, yet it is
classified into the `skip` category, which is none of mapping, concept and
scheme, and reaches no validator. -/
theorem skip_record_defies_three_way :
    classify (JValue.obj []) = Except.ok Classification.skip ∧
    Classification.skip ≠ Classification.mapping ∧
    Classification.skip ≠ Classification.concept ∧
    Classification.skip ≠ Classification.scheme ∧
    validatorFor trivValidators Classification.skip = none :=
  ⟨rfl, by decide, by decide, by decide, rfl⟩

/-- C1 (amended): every parsed record on which the forEach body does not
throw is classified into exactly one of the four categories mapping,
concept, scheme and skip, and its processing is exactly the dispatch to the
validator corresponding to that category (skip reaches no validator). -/
theorem classify_dispatch (V : Validators) (idx : Nat) (item : JValue)
    (h : processable item = true) :
    ∃ c : Classification, classify item = Except.ok c ∧
      (∀ c', classify item = Except.ok c' → c' = c) ∧
      processItem V idx item = Except.ok (dispatchResult V idx item c) := by
  unfold processable at h
  rcases hcl : classify item with e | c
  · rw [hcl] at h; simp at h
  · refine ⟨c, rfl, ?_, ?_⟩
    · intro c' hc'
      exact (Except.ok.inj hc').symm
    · rw [processItem_eq_classify, hcl]; rfl

/-- C1 witness: a concrete mapping record is classified and dispatched. -/
theorem classify_dispatch_witness :
    processable (JValue.obj [("from", JValue.str "a"), ("to", JValue.str "b")]) = true ∧
    ∃ c : Classification,
      classify (JValue.obj [("from", JValue.str "a"), ("to", JValue.str "b")]) =
        Except.ok c ∧
      (∀ c', classify (JValue.obj [("from", JValue.str "a"), ("to", JValue.str "b")]) =
        Except.ok c' → c' = c) ∧
      processItem trivValidators 0
          (JValue.obj [("from", JValue.str "a"), ("to", JValue.str "b")]) =
        Except.ok (dispatchResult trivValidators 0
          (JValue.obj [("from", JValue.str "a"), ("to", JValue.str "b")]) c) :=
  ⟨rfl, classify_dispatch trivValidators 0 _ rfl⟩

/-- C3 counterexample: an empty-string command-line argument is a supplied
argument, yet the script falls back to the default file name instead of
using it. -/
theorem empty_arg_falls_back :
    filePath (some "") = "jskos-mappings.ndjson" ∧
    ("jskos-mappings.ndjson" : String) ≠ "" :=
  ⟨rfl, by decide⟩

/-- C3 (amended): with no argument, or with an empty-string argument, the
default `jskos-mappings.ndjson` is used; a non-empty argument is used as
given. -/
theorem filePath_resolution (s : String) (h : s ≠ "") :
    filePath none = "jskos-mappings.ndjson" ∧
    filePath (some s) = s ∧
    filePath (some "") = "jskos-mappings.ndjson" := by
  refine ⟨rfl, ?_, rfl⟩
  show (if s.isEmpty = true then "jskos-mappings.ndjson" else s) = s
  rw [if_neg]
  simp only [String.isEmpty_iff]
  exact h

/-- C3 witness: the resolution at the concrete argument "data.ndjson". -/
theorem filePath_resolution_witness :
    ("data.ndjson" : String) ≠ "" ∧
    (filePath none = "jskos-mappings.ndjson" ∧
     filePath (some "data.ndjson") = "data.ndjson" ∧
     filePath (some "") = "jskos-mappings.ndjson") :=
  ⟨by decide, filePath_resolution "data.ndjson" (by decide)⟩

/-- C4 counterexample: the record `{"type": 5}` matches none of the three
recognized shapes, yet the script does not print the skip warning for it:
the `.includes` call throws a TypeError. -/
theorem unknown_numeric_type_throws :
    processItem trivValidators 0 (JValue.obj [("type", JValue.num 5)]) =
      Except.error () ∧
    (Except.error () :
        Except Unit (List OutLine × Nat × Nat)) ≠
      Except.ok ([OutLine.skipWarn 0], 0, 0) :=
  ⟨rfl, fun h => Except.noConfusion h⟩

/-- C4 (amended): every parsed record that the dispatch classifies as skip
(it matches none of the three shapes and the tests on it do not throw) gets
exactly the skip warning carrying its index, with both counters
unchanged. -/
theorem skip_warning (V : Validators) (idx : Nat) (item : JValue)
    (h : classify item = Except.ok Classification.skip) :
    processItem V idx item = Except.ok ([OutLine.skipWarn idx], 0, 0) ∧
    render (OutLine.skipWarn idx) = "⚠️ Skipping unknown item " ++ toString idx := by
  refine ⟨?_, rfl⟩
  rw [processItem_eq_classify, h]; rfl

/-- C4 witness: the skip warning on the concrete record `{}` at index 7. -/
theorem skip_warning_witness :
    classify (JValue.obj []) = Except.ok Classification.skip ∧
    (processItem trivValidators 7 (JValue.obj []) =
        Except.ok ([OutLine.skipWarn 7], 0, 0) ∧
      render (OutLine.skipWarn 7) = "⚠️ Skipping unknown item " ++ toString 7) :=
  ⟨rfl, skip_warning trivValidators 7 (JValue.obj []) rfl⟩

/-- C5: a record dispatched to a validator is reported valid with a
`countValid` increment of one when the validator accepts it, and otherwise
gets the INVALID header followed by one line per `errorMessages` entry and a
`countInvalid` increment of one. -/
theorem validator_reporting (V : Validators) (idx : Nat) (item : JValue)
    (c : Classification) (v : Validator)
    (hc : classify item = Except.ok c) (hv : validatorFor V c = some v) :
    (v.check item = true →
      processItem V idx item =
        Except.ok ([OutLine.validLine (typeFieldD item) idx], 1, 0)) ∧
    (v.check item = false →
      processItem V idx item =
        Except.ok (OutLine.invalidHeader (typeFieldD item) idx ::
          (v.errorMessages item).map OutLine.errMsg, 0, 1)) := by
  constructor <;> intro hchk <;>
    rw [processItem_eq_classify, hc] <;>
      simp [Except.map, dispatchResult, hv, finishItem, hchk]

/-- C7: the run is a function of the command-line argument and of the file
contents at the resolved path: two runs that agree on those produce the same
output events and the same counts. -/
theorem deterministic_runs (parse : List Char → Except Unit JValue)
    (V : Validators) (fs1 fs2 : String → List Char) (a1 a2 : Option String)
    (hargs : a1 = a2) (hfile : fs1 (filePath a1) = fs2 (filePath a2)) :
    fullRun parse V fs1 a1 = fullRun parse V fs2 a2 := by
  subst hargs
  unfold fullRun
  rw [hfile]

/-- C7 witness: two concrete file systems agreeing at the default path give
identical runs. -/
theorem deterministic_runs_witness :
    ((fun _ : String => ('a' : Char) :: []) "jskos-mappings.ndjson" =
      (fun p : String =>
        if p = "jskos-mappings.ndjson" then ('a' : Char) :: [] else []) "jskos-mappings.ndjson") ∧
    fullRun failParse trivValidators (fun _ => ('a' : Char) :: []) none =
      fullRun failParse trivValidators
        (fun p => if p = "jskos-mappings.ndjson" then ('a' : Char) :: [] else []) none :=
  ⟨rfl, deterministic_runs failParse trivValidators _ _ none none rfl rfl⟩

/-- C5 witness: a concrete mapping record accepted by the trivial validator
is reported valid with a `countValid` increment of one. -/
theorem validator_reporting_witness :
    classify mappingRecord = Except.ok Classification.mapping ∧
    validatorFor trivValidators Classification.mapping = some trivValidator ∧
    trivValidator.check mappingRecord = true ∧
    processItem trivValidators 0 mappingRecord =
      Except.ok ([OutLine.validLine (typeFieldD mappingRecord) 0], 1, 0) :=
  ⟨rfl, rfl, rfl,
    (validator_reporting trivValidators 0 mappingRecord Classification.mapping
      trivValidator rfl rfl).1 rfl⟩

/-- Error-message lines are never the summary event. -/
theorem no_summary_in_errs (errors : List String) :
    (errors.map OutLine.errMsg).countP isSummaryEvt = 0 := by
  induction errors with
  | nil => rfl
  | cons e rest ih => simp [List.countP_cons, isSummaryEvt, ih]

/-- The dispatch of a classified record contributes one to exactly one
counter when it reaches a validator, nothing when skipped, and its output
never contains a summary event. -/
theorem dispatch_counts (V : Validators) (idx : Nat) (item : JValue)
    (c : Classification) (hcl : classify item = Except.ok c) :
    ∃ out : List OutLine,
      dispatchResult V idx item c =
        (out, (if isDispatched item && recordValid V item then 1 else 0),
          (if isDispatched item && !(recordValid V item) then 1 else 0)) ∧
      out.countP isSummaryEvt = 0 := by
  unfold dispatchResult isDispatched recordValid
  rw [hcl]
  cases c with
  | mapping =>
    by_cases hchk : V.mapping.check item = true
    · exact ⟨[OutLine.validLine (typeFieldD item) idx],
        by simp [validatorFor, finishItem, hchk],
        by simp [List.countP_cons, isSummaryEvt]⟩
    · rw [Bool.not_eq_true] at hchk
      exact ⟨OutLine.invalidHeader (typeFieldD item) idx ::
          (V.mapping.errorMessages item).map OutLine.errMsg,
        by simp [validatorFor, finishItem, hchk],
        by simp [List.countP_cons, isSummaryEvt, no_summary_in_errs]⟩
  | concept =>
    by_cases hchk : V.concept.check item = true
    · exact ⟨[OutLine.validLine (typeFieldD item) idx],
        by simp [validatorFor, finishItem, hchk],
        by simp [List.countP_cons, isSummaryEvt]⟩
    · rw [Bool.not_eq_true] at hchk
      exact ⟨OutLine.invalidHeader (typeFieldD item) idx ::
          (V.concept.errorMessages item).map OutLine.errMsg,
        by simp [validatorFor, finishItem, hchk],
        by simp [List.countP_cons, isSummaryEvt, no_summary_in_errs]⟩
  | scheme =>
    by_cases hchk : V.scheme.check item = true
    · exact ⟨[OutLine.validLine (typeFieldD item) idx],
        by simp [validatorFor, finishItem, hchk],
        by simp [List.countP_cons, isSummaryEvt]⟩
    · rw [Bool.not_eq_true] at hchk
      exact ⟨OutLine.invalidHeader (typeFieldD item) idx ::
          (V.scheme.errorMessages item).map OutLine.errMsg,
        by simp [validatorFor, finishItem, hchk],
        by simp [List.countP_cons, isSummaryEvt, no_summary_in_errs]⟩
  | skip =>
    exact ⟨[OutLine.skipWarn idx], by simp [validatorFor],
      by simp [List.countP_cons, isSummaryEvt]⟩

/-- Loop invariant of `items.forEach` when every item is processable: no
crash, each counter counts its records, and no summary event is printed by
the loop body. -/
theorem runItemsFrom_spec (V : Validators) (idx : Nat) (items : List JValue)
    (h : ∀ i ∈ items, processable i = true) :
    (runItemsFrom V idx items).crashed = false ∧
    (runItemsFrom V idx items).countValid =
      items.countP (fun i => isDispatched i && recordValid V i) ∧
    (runItemsFrom V idx items).countInvalid =
      items.countP (fun i => isDispatched i && !(recordValid V i)) ∧
    (runItemsFrom V idx items).output.countP isSummaryEvt = 0 := by
  induction items generalizing idx with
  | nil => exact ⟨rfl, rfl, rfl, rfl⟩
  | cons item rest ih =>
    have hp : processable item = true := h item (List.mem_cons_self item rest)
    have hrest : ∀ i ∈ rest, processable i = true :=
      fun i hi => h i (List.mem_cons_of_mem item hi)
    obtain ⟨ihc, ihv, ihi, ihs⟩ := ih (idx + 1) hrest
    unfold processable at hp
    rcases hcl : classify item with e | c
    · rw [hcl] at hp; simp at hp
    · obtain ⟨out, hdr, hout⟩ := dispatch_counts V idx item c hcl
      have hpi : processItem V idx item =
          Except.ok (out, (if isDispatched item && recordValid V item then 1 else 0),
            (if isDispatched item && !(recordValid V item) then 1 else 0)) := by
        rw [processItem_eq_classify, hcl]
        simp only [Except.map]
        rw [hdr]
      unfold runItemsFrom
      rw [hpi]
      refine ⟨ihc, ?_, ?_, ?_⟩
      · simp only [List.countP_cons, ihv]
        omega
      · simp only [List.countP_cons, ihi]
        omega
      · simp only [List.countP_append, hout, ihs]

/-- Splitting a count by a second boolean predicate. -/
theorem countP_and_split {α : Type} (p q : α → Bool) (l : List α) :
    l.countP (fun a => p a && q a) + l.countP (fun a => p a && !q a) =
      l.countP p := by
  induction l with
  | nil => rfl
  | cons a l ih =>
    simp only [List.countP_cons]
    by_cases hp : p a = true <;> by_cases hq : q a = true <;>
      simp [hp, hq] <;> omega

/-- C2 counterexample: a one-line file whose record is `{"type": 5}`: the
record neither increments a counter nor is skipped with a warning, and no
summary line is printed — the run dies with an uncaught TypeError. -/
theorem crash_skips_summary :
    (runScript numTypeParse trivValidators ("x".toList)).output = [] ∧
    (runScript numTypeParse trivValidators ("x".toList)).countValid = 0 ∧
    (runScript numTypeParse trivValidators ("x".toList)).countInvalid = 0 ∧
    (runScript numTypeParse trivValidators ("x".toList)).crashed = true :=
  ⟨rfl, rfl, rfl, rfl⟩

/-- C2 (amended): when every parsed record is processable (no TypeError),
the loop never crashes, `countValid` counts exactly the dispatched records
the validator accepts, `countInvalid` exactly the dispatched records it
rejects, the two counters sum to the number of dispatched records, and the
output ends with the single summary event reporting the final counters. -/
theorem counts_partition (V : Validators) (items : List JValue)
    (h : ∀ i ∈ items, processable i = true) :
    (runOnItems V items).crashed = false ∧
    (runOnItems V items).countValid =
      items.countP (fun i => isDispatched i && recordValid V i) ∧
    (runOnItems V items).countInvalid =
      items.countP (fun i => isDispatched i && !(recordValid V i)) ∧
    (runOnItems V items).countValid + (runOnItems V items).countInvalid =
      items.countP isDispatched ∧
    ∃ body,
      (runOnItems V items).output =
        body ++ [OutLine.summary ((runOnItems V items).countValid)
          ((runOnItems V items).countInvalid)] ∧
      body.countP isSummaryEvt = 0 := by
  obtain ⟨hc, hv, hi, hs⟩ := runItemsFrom_spec V 0 items h
  have hrun : runOnItems V items =
      { output := (runItemsFrom V 0 items).output ++
          [OutLine.summary ((runItemsFrom V 0 items).countValid)
            ((runItemsFrom V 0 items).countInvalid)],
        countValid := (runItemsFrom V 0 items).countValid,
        countInvalid := (runItemsFrom V 0 items).countInvalid,
        crashed := false } := by
    simp only [runOnItems, hc, Bool.false_eq_true, if_false]
  rw [hrun]
  refine ⟨rfl, hv, hi, ?_, (runItemsFrom V 0 items).output, rfl, hs⟩
  show (runItemsFrom V 0 items).countValid + (runItemsFrom V 0 items).countInvalid =
    items.countP isDispatched
  rw [hv, hi]
  exact countP_and_split isDispatched (recordValid V) items

/-- C2 witness: on a concrete two-record list (one valid mapping, one
unknown record) the counters and the summary are as stated. -/
theorem counts_partition_witness :
    (∀ i ∈ sampleItems, processable i = true) ∧
    ((runOnItems trivValidators sampleItems).crashed = false ∧
      (runOnItems trivValidators sampleItems).countValid =
        sampleItems.countP (fun i => isDispatched i && recordValid trivValidators i) ∧
      (runOnItems trivValidators sampleItems).countInvalid =
        sampleItems.countP
          (fun i => isDispatched i && !(recordValid trivValidators i)) ∧
      (runOnItems trivValidators sampleItems).countValid +
          (runOnItems trivValidators sampleItems).countInvalid =
        sampleItems.countP isDispatched ∧
      ∃ body,
        (runOnItems trivValidators sampleItems).output =
          body ++ [OutLine.summary ((runOnItems trivValidators sampleItems).countValid)
            ((runOnItems trivValidators sampleItems).countInvalid)] ∧
        body.countP isSummaryEvt = 0) :=
  ⟨by decide, counts_partition trivValidators sampleItems (by decide)⟩

/-- A failing parse of any member line fails the whole map. -/
theorem parseAll_error (parse : List Char → Except Unit JValue)
    (ls : List (List Char)) (l : List Char) (hl : l ∈ ls)
    (he : parse l = Except.error ()) :
    parseAll parse ls = Except.error () := by
  induction ls with
  | nil => cases hl
  | cons a rest ih =>
    rcases List.mem_cons.mp hl with rfl | hmem
    · unfold parseAll
      rw [he]
    · unfold parseAll
      cases hp : parse a
      · rfl
      · rw [ih hmem]

/-- C6: when any line of the file fails to parse, the script aborts before
validating anything: no record is validated, counted or reported. -/
theorem malformed_line_aborts (parse : List Char → Except Unit JValue)
    (V : Validators) (content : List Char)
    (h : ∃ l ∈ computeLines content, parse l = Except.error ()) :
    runScript parse V content = ⟨[], 0, 0, true⟩ := by
  obtain ⟨l, hl, he⟩ := h
  unfold runScript
  rw [parseAll_error parse _ l hl he]

/-- C6 witness: an all-failing parse on a one-line file produces the empty,
crashed run. -/
theorem malformed_line_aborts_witness :
    (∃ l ∈ computeLines ("x".toList), failParse l = Except.error ()) ∧
    runScript failParse trivValidators ("x".toList) = ⟨[], 0, 0, true⟩ :=
  ⟨⟨"x".toList, by decide, rfl⟩,
    malformed_line_aborts failParse trivValidators ("x".toList)
      ⟨"x".toList, by decide, rfl⟩⟩

/-- C8: a record with truthy `from` and `to` fields is classified and
validated as a mapping whatever its type field says, and a record without
that pair is never classified as a mapping. -/
theorem mapping_precedence (V : Validators) (idx : Nat) (item : JValue) :
    (hasTruthyField item "from" = true → hasTruthyField item "to" = true →
      classify item = Except.ok Classification.mapping ∧
      processItem V idx item =
        Except.ok (finishItem (V.mapping.check item) (V.mapping.errorMessages item)
          (typeFieldD item) idx)) ∧
    (¬(hasTruthyField item "from" = true ∧ hasTruthyField item "to" = true) →
      classify item ≠ Except.ok Classification.mapping) := by
  constructor
  · intro hfrom hto
    obtain ⟨fields, rfl⟩ := hasTruthyField_obj hfrom
    rw [hasTruthyField_obj_eq] at hfrom hto
    have hcl : classify (JValue.obj fields) = Except.ok Classification.mapping := by
      rw [classify_obj, hfrom, hto]
      rfl
    refine ⟨hcl, ?_⟩
    rw [processItem_eq_classify, hcl]
    rfl
  · intro hno hcl
    refine hno ?_
    cases item with
    | null => exact Except.noConfusion hcl
    | bool b => exact Classification.noConfusion (Except.ok.inj hcl)
    | num n => exact Classification.noConfusion (Except.ok.inj hcl)
    | str s => exact Classification.noConfusion (Except.ok.inj hcl)
    | arr elems => exact Classification.noConfusion (Except.ok.inj hcl)
    | obj fields =>
      rw [classify_obj] at hcl
      by_cases hb : (truthyOpt (fields.lookup "from") && truthyOpt (fields.lookup "to")) = true
      · rw [hasTruthyField_obj_eq, hasTruthyField_obj_eq]
        exact ⟨((Bool.and_eq_true _ _).mp hb).1, ((Bool.and_eq_true _ _).mp hb).2⟩
      · rw [Bool.not_eq_true] at hb
        rw [hb] at hcl
        simp only [Bool.false_eq_true, if_false] at hcl
        rcases h4 : typeIncludes (jsOr (fields.lookup "type") (fields.lookup "@type"))
            "skos:Concept" with e4 | b4 <;> rw [h4] at hcl
        · exact Except.noConfusion hcl
        · cases b4 with
          | true => exact Classification.noConfusion (Except.ok.inj hcl)
          | false =>
            rcases h5 : typeIncludes (jsOr (fields.lookup "type") (fields.lookup "@type"))
                "ConceptScheme" with e5 | b5 <;> rw [h5] at hcl
            · exact Except.noConfusion hcl
            · cases b5 with
              | true => exact Classification.noConfusion (Except.ok.inj hcl)
              | false => exact Classification.noConfusion (Except.ok.inj hcl)

/-- C8 witness: the concrete record with `from`, `to` and a type saying
"skos:Concept" is still validated as a mapping. -/
theorem mapping_precedence_witness :
    hasTruthyField precedenceRecord "from" = true ∧
    hasTruthyField precedenceRecord "to" = true ∧
    (classify precedenceRecord = Except.ok Classification.mapping ∧
      processItem trivValidators 0 precedenceRecord =
        Except.ok (finishItem (trivValidators.mapping.check precedenceRecord)
          (trivValidators.mapping.errorMessages precedenceRecord)
          (typeFieldD precedenceRecord) 0)) :=
  ⟨rfl, rfl, (mapping_precedence trivValidators 0 precedenceRecord).1 rfl rfl⟩

/-- C9 counterexample: a record whose type is the array
`["skos:ConceptScheme"]` does not reach the scheme branch: array `includes`
compares whole elements, so the record is skipped. -/
theorem array_concept_scheme_skipped :
    classify (JValue.obj [("type", JValue.arr [JValue.str "skos:ConceptScheme"])]) =
      Except.ok Classification.skip ∧
    Classification.skip ≠ Classification.scheme ∧
    Classification.skip ≠ Classification.concept :=
  ⟨rfl, by decide, by decide⟩

/-- C9 (amended): a record without a truthy `from`/`to` pair whose type
field resolves to the string "skos:ConceptScheme" goes to the concept
branch (substring test), and the scheme branch is reached exactly when the
type field includes "ConceptScheme" but not "skos:Concept" — e.g. the
string "ConceptScheme" or the array `["ConceptScheme"]`, but not the array
`["skos:ConceptScheme"]`. -/
theorem scheme_branch_conditions (item q : JValue)
    (h : classify item = Except.ok Classification.scheme)
    (hq : getTypeField q = Except.ok (some (JValue.str "skos:ConceptScheme")))
    (hqft : ¬(hasTruthyField q "from" = true ∧ hasTruthyField q "to" = true)) :
    (∃ tf, getTypeField item = Except.ok tf ∧
      typeIncludes tf "skos:Concept" = Except.ok false ∧
      typeIncludes tf "ConceptScheme" = Except.ok true) ∧
    classify q = Except.ok Classification.concept ∧
    classify (JValue.obj [("type", JValue.arr [JValue.str "ConceptScheme"])]) =
      Except.ok Classification.scheme ∧
    classify schemeStringRecord = Except.ok Classification.scheme := by
  refine ⟨?_, ?_, rfl, rfl⟩
  · cases item with
    | null => exact Except.noConfusion h
    | bool b => exact Classification.noConfusion (Except.ok.inj h)
    | num n => exact Classification.noConfusion (Except.ok.inj h)
    | str s => exact Classification.noConfusion (Except.ok.inj h)
    | arr elems => exact Classification.noConfusion (Except.ok.inj h)
    | obj fields =>
      rw [classify_obj] at h
      by_cases hb : (truthyOpt (fields.lookup "from") && truthyOpt (fields.lookup "to")) = true
      · rw [if_pos hb] at h
        exact Classification.noConfusion (Except.ok.inj h)
      · rw [Bool.not_eq_true] at hb
        rw [hb] at h
        simp only [Bool.false_eq_true, if_false] at h
        rcases h4 : typeIncludes (jsOr (fields.lookup "type") (fields.lookup "@type"))
            "skos:Concept" with e4 | b4 <;> rw [h4] at h
        · exact Except.noConfusion h
        · cases b4 with
          | true => exact Classification.noConfusion (Except.ok.inj h)
          | false =>
            rcases h5 : typeIncludes (jsOr (fields.lookup "type") (fields.lookup "@type"))
                "ConceptScheme" with e5 | b5 <;> rw [h5] at h
            · exact Except.noConfusion h
            · cases b5 with
              | true =>
                exact ⟨jsOr (fields.lookup "type") (fields.lookup "@type"), rfl, h4, h5⟩
              | false => exact Classification.noConfusion (Except.ok.inj h)
  · cases q with
    | null => exact Except.noConfusion hq
    | bool b => exact Option.noConfusion (Except.ok.inj hq)
    | num n => exact Option.noConfusion (Except.ok.inj hq)
    | str s => exact Option.noConfusion (Except.ok.inj hq)
    | arr elems => exact Option.noConfusion (Except.ok.inj hq)
    | obj fields =>
      have htf : jsOr (fields.lookup "type") (fields.lookup "@type") =
          some (JValue.str "skos:ConceptScheme") := Except.ok.inj hq
      have hb : (truthyOpt (fields.lookup "from") && truthyOpt (fields.lookup "to")) = false := by
        rw [hasTruthyField_obj_eq, hasTruthyField_obj_eq] at hqft
        by_cases h1 : truthyOpt (fields.lookup "from") = true
        · by_cases h2 : truthyOpt (fields.lookup "to") = true
          · exact absurd ⟨h1, h2⟩ hqft
          · rw [Bool.not_eq_true] at h2
            rw [h2, Bool.and_false]
        · rw [Bool.not_eq_true] at h1
          rw [h1, Bool.false_and]
      rw [classify_obj, htf, hb]
      rfl

/-- C9 witness: the theorem at the concrete records with type
"ConceptScheme" (scheme branch) and "skos:ConceptScheme" (concept
branch). -/
theorem scheme_branch_conditions_witness :
    classify schemeStringRecord = Except.ok Classification.scheme ∧
    getTypeField skosSchemeStringRecord =
      Except.ok (some (JValue.str "skos:ConceptScheme")) ∧
    ¬(hasTruthyField skosSchemeStringRecord "from" = true ∧
      hasTruthyField skosSchemeStringRecord "to" = true) ∧
    ((∃ tf, getTypeField schemeStringRecord = Except.ok tf ∧
        typeIncludes tf "skos:Concept" = Except.ok false ∧
        typeIncludes tf "ConceptScheme" = Except.ok true) ∧
      classify skosSchemeStringRecord = Except.ok Classification.concept ∧
      classify (JValue.obj [("type", JValue.arr [JValue.str "ConceptScheme"])]) =
        Except.ok Classification.scheme ∧
      classify schemeStringRecord = Except.ok Classification.scheme) :=
  ⟨rfl, rfl, by decide,
    scheme_branch_conditions schemeStringRecord skosSchemeStringRecord rfl rfl (by decide)⟩

/-- A character other than LF and CR extends the current chunk. -/
theorem splitLinesRegex_cons_other (c : Char) (cs : List Char)
    (h1 : c ≠ '\n') (h2 : c ≠ '\r') :
    splitLinesRegex (c :: cs) = prependChar c (splitLinesRegex cs) := by
  rw [splitLinesRegex.eq_def]
  split <;> simp_all

/-- A chunk without line breaks splits into itself. -/
theorem splitLinesRegex_no_break (l : List Char) (h1 : '\n' ∉ l) (h2 : '\r' ∉ l) :
    splitLinesRegex l = [l] := by
  induction l with
  | nil => rfl
  | cons c cs ih =>
    have hc1 : c ≠ '\n' := fun he => h1 (List.mem_cons.mpr (Or.inl he.symm))
    have hc2 : c ≠ '\r' := fun he => h2 (List.mem_cons.mpr (Or.inl he.symm))
    have h1' : '\n' ∉ cs := fun hm => h1 (List.mem_cons.mpr (Or.inr hm))
    have h2' : '\r' ∉ cs := fun hm => h2 (List.mem_cons.mpr (Or.inr hm))
    rw [splitLinesRegex_cons_other c cs hc1 hc2, ih h1' h2']
    rfl

/-- Splitting at a LF separator after a break-free chunk. -/
theorem splitLinesRegex_append_lf (l rest : List Char)
    (h1 : '\n' ∉ l) (h2 : '\r' ∉ l) :
    splitLinesRegex (l ++ '\n' :: rest) = l :: splitLinesRegex rest := by
  induction l with
  | nil => rfl
  | cons c cs ih =>
    have hc1 : c ≠ '\n' := fun he => h1 (List.mem_cons.mpr (Or.inl he.symm))
    have hc2 : c ≠ '\r' := fun he => h2 (List.mem_cons.mpr (Or.inl he.symm))
    have h1' : '\n' ∉ cs := fun hm => h1 (List.mem_cons.mpr (Or.inr hm))
    have h2' : '\r' ∉ cs := fun hm => h2 (List.mem_cons.mpr (Or.inr hm))
    rw [List.cons_append, splitLinesRegex_cons_other c _ hc1 hc2, ih h1' h2']
    rfl

/-- Splitting at a CRLF separator after a break-free chunk. -/
theorem splitLinesRegex_append_crlf (l rest : List Char)
    (h1 : '\n' ∉ l) (h2 : '\r' ∉ l) :
    splitLinesRegex (l ++ '\r' :: '\n' :: rest) = l :: splitLinesRegex rest := by
  induction l with
  | nil => rfl
  | cons c cs ih =>
    have hc1 : c ≠ '\n' := fun he => h1 (List.mem_cons.mpr (Or.inl he.symm))
    have hc2 : c ≠ '\r' := fun he => h2 (List.mem_cons.mpr (Or.inl he.symm))
    have h1' : '\n' ∉ cs := fun hm => h1 (List.mem_cons.mpr (Or.inr hm))
    have h2' : '\r' ∉ cs := fun hm => h2 (List.mem_cons.mpr (Or.inr hm))
    rw [List.cons_append, splitLinesRegex_cons_other c _ hc1 hc2, ih h1' h2']
    rfl

/-- Unfolding of the separator-joined list on two or more lines. -/
theorem interSep_cons_cons (sep : List Char) (l l2 : List Char)
    (ls : List (List Char)) :
    interSep sep (l :: l2 :: ls) = l ++ (sep ++ interSep sep (l2 :: ls)) := by
  rw [show interSep sep (l :: l2 :: ls) = l ++ sep ++ interSep sep (l2 :: ls) from rfl,
    List.append_assoc]

/-- Splitting recovers the lines of a LF-joined break-free line list. -/
theorem splitLinesRegex_interLF (ls : List (List Char)) (hne : ls ≠ [])
    (h : ∀ l ∈ ls, '\n' ∉ l ∧ '\r' ∉ l) :
    splitLinesRegex (interSep ['\n'] ls) = ls := by
  induction ls with
  | nil => exact absurd rfl hne
  | cons l ls2 ih =>
    cases ls2 with
    | nil =>
      rw [show interSep ['\n'] [l] = l from rfl]
      rw [splitLinesRegex_no_break l (h l (List.mem_cons_self _ _)).1
        (h l (List.mem_cons_self _ _)).2]
    | cons l2 ls3 =>
      rw [interSep_cons_cons,
        show (['\n'] : List Char) ++ interSep ['\n'] (l2 :: ls3) =
          '\n' :: interSep ['\n'] (l2 :: ls3) from rfl,
        splitLinesRegex_append_lf l _ (h l (List.mem_cons_self _ _)).1
          (h l (List.mem_cons_self _ _)).2,
        ih (List.cons_ne_nil _ _) (fun x hx => h x (List.mem_cons.mpr (Or.inr hx)))]

/-- Splitting recovers the lines of a CRLF-joined break-free line list. -/
theorem splitLinesRegex_interCRLF (ls : List (List Char)) (hne : ls ≠ [])
    (h : ∀ l ∈ ls, '\n' ∉ l ∧ '\r' ∉ l) :
    splitLinesRegex (interSep ['\r', '\n'] ls) = ls := by
  induction ls with
  | nil => exact absurd rfl hne
  | cons l ls2 ih =>
    cases ls2 with
    | nil =>
      rw [show interSep ['\r', '\n'] [l] = l from rfl]
      rw [splitLinesRegex_no_break l (h l (List.mem_cons_self _ _)).1
        (h l (List.mem_cons_self _ _)).2]
    | cons l2 ls3 =>
      rw [interSep_cons_cons,
        show (['\r', '\n'] : List Char) ++ interSep ['\r', '\n'] (l2 :: ls3) =
          '\r' :: '\n' :: interSep ['\r', '\n'] (l2 :: ls3) from rfl,
        splitLinesRegex_append_crlf l _ (h l (List.mem_cons_self _ _)).1
          (h l (List.mem_cons_self _ _)).2,
        ih (List.cons_ne_nil _ _) (fun x hx => h x (List.mem_cons.mpr (Or.inr hx)))]

/-- Leading and trailing whitespace around any content is removed by trim:
the trim of the sandwich is the trim of the middle. -/
theorem jsTrim_sandwich (ws c ws' : List Char)
    (hws : ∀ x ∈ ws, jsIsWS x = true) (hws' : ∀ x ∈ ws', jsIsWS x = true) :
    jsTrim (ws ++ c ++ ws') = jsTrim c := by
  unfold jsTrim
  rw [List.append_assoc, List.dropWhile_append_of_pos hws]
  rcases hd : c.dropWhile jsIsWS with _ | ⟨d, ds⟩
  · have hall : ∀ x ∈ c, jsIsWS x = true := List.dropWhile_eq_nil_iff.mp hd
    rw [List.dropWhile_append_of_pos hall, List.dropWhile_eq_nil_iff.mpr hws']
  · rw [List.dropWhile_append, hd]
    simp only [List.isEmpty_cons, Bool.false_eq_true, if_false]
    rw [List.reverse_append,
      List.dropWhile_append_of_pos (fun x hx => hws' x (List.mem_reverse.mp hx))]

/-- C10: line extraction tolerates LF and CRLF line endings and ignores
blank lines: joining break-free lines with either separator and extracting
gives exactly the non-empty lines (so record indices range over the
non-empty lines only), whitespace-only padding around the content changes
nothing, and no extracted line is ever empty. -/
theorem line_extraction (ls : List (List Char)) (ws c ws' : List Char)
    (hclean : ∀ l ∈ ls, '\n' ∉ l ∧ '\r' ∉ l)
    (hLF : jsTrim (interSep ['\n'] ls) = interSep ['\n'] ls)
    (hCRLF : jsTrim (interSep ['\r', '\n'] ls) = interSep ['\r', '\n'] ls)
    (hws : ∀ x ∈ ws, jsIsWS x = true) (hws' : ∀ x ∈ ws', jsIsWS x = true) :
    computeLines (interSep ['\n'] ls) = ls.filter (fun l => !l.isEmpty) ∧
    computeLines (interSep ['\r', '\n'] ls) = ls.filter (fun l => !l.isEmpty) ∧
    computeLines (ws ++ c ++ ws') = computeLines c ∧
    [] ∉ computeLines c := by
  refine ⟨?_, ?_, ?_, ?_⟩
  · unfold computeLines
    rw [hLF]
    cases ls with
    | nil => rfl
    | cons l ls2 =>
      rw [splitLinesRegex_interLF (l :: ls2) (List.cons_ne_nil _ _) hclean]
  · unfold computeLines
    rw [hCRLF]
    cases ls with
    | nil => rfl
    | cons l ls2 =>
      rw [splitLinesRegex_interCRLF (l :: ls2) (List.cons_ne_nil _ _) hclean]
  · unfold computeLines
    rw [jsTrim_sandwich ws c ws' hws hws']
  · unfold computeLines
    intro hmem
    rw [List.mem_filter] at hmem
    simp at hmem

/-- C10 witness: the concrete lines "a", "" and "b", joined with both
separators, with a space before and a newline after the one-line content
"a". -/
theorem line_extraction_witness :
    (∀ l ∈ ([['a'], [], ['b']] : List (List Char)), '\n' ∉ l ∧ '\r' ∉ l) ∧
    jsTrim (interSep ['\n'] [['a'], [], ['b']]) = interSep ['\n'] [['a'], [], ['b']] ∧
    jsTrim (interSep ['\r', '\n'] [['a'], [], ['b']]) =
      interSep ['\r', '\n'] [['a'], [], ['b']] ∧
    (∀ x ∈ ([' '] : List Char), jsIsWS x = true) ∧
    (∀ x ∈ (['\n'] : List Char), jsIsWS x = true) ∧
    (computeLines (interSep ['\n'] [['a'], [], ['b']]) =
        ([['a'], [], ['b']] : List (List Char)).filter (fun l => !l.isEmpty) ∧
      computeLines (interSep ['\r', '\n'] [['a'], [], ['b']]) =
        ([['a'], [], ['b']] : List (List Char)).filter (fun l => !l.isEmpty) ∧
      computeLines ([' '] ++ ['a'] ++ ['\n']) = computeLines ['a'] ∧
      [] ∉ computeLines ['a']) :=
  ⟨by decide, by decide, by decide, by decide, by decide,
    line_extraction [['a'], [], ['b']] [' '] ['a'] ['\n']
      (by decide) (by decide) (by decide) (by decide) (by decide)⟩

end JsValidate
